import Mathlib

/-!
Verification of the OverseasAI.list rule-pipeline and domain-liveness scripts.

The definitions below are a shallow embedding of the three Python scripts
`scripts/sync_rules.py`, `scripts/build_clients.py` and
`scripts/check_domains.py`.  File reads/writes and CLI parsing are replaced by
explicit inputs and outputs; strings are Lean `String`s (Python `str`
comparison is code-point lexicographic, which coincides with the `List Char`
lexicographic order used here); Python `dict`s become association lists;
Python `set`s become duplicate-free lists compared by membership.
-/

/- ### Liveness status (`check_domains.py`, return values of `check_domain`) -/

/-- The three liveness classifications `check_domain` can return. -/
inductive Status where
  | ok
  | nxdomain
  | unknown
deriving DecidableEq

/-- Persisted per-domain state, one entry of `nxdomain_state.json`:
`{"count": ..., "last_status": ..., "last_checked": ...}`. -/
structure LivenessRecord where
  count : Nat
  last_status : Status
  last_checked : String
deriving DecidableEq

/-- The constant `THRESHOLD = 3` in `check_domains.py`. -/
def THRESHOLD : Nat := 3

/-- One step of the staleness state machine, from the per-domain block in
`check_domains.main` (lines 108-125): `NXDOMAIN` increments the consecutive
failure counter, `OK` resets it, anything else (`UNKNOWN`) keeps it; the new
record stores the fresh status and timestamp unconditionally. -/
def advanceState (prevCount : Nat) (status : Status) (now : String) : LivenessRecord :=
  { count :=
      match status with
      | .nxdomain => prevCount + 1
      | .ok => 0
      | .unknown => prevCount
    last_status := status
    last_checked := now }

/-- Python `state.get(domain, {"count": 0})` followed by `int(prev.get("count", 0))`:
the prior counter of a domain, defaulting to `0`. -/
def prevCountOf (state : List (String × LivenessRecord)) (d : String) : Nat :=
  ((state.lookup d).map (·.count)).getD 0

/-- The state written at the end of a run of `check_domains.main`: the script
starts from `updated_state = {}` and inserts one fresh record per domain of
the *current* rule corpus (`for domain in domains`), then writes
`updated_state` in full.  `results` is the per-domain status collected from
the worker pool (`results.get(domain, "UNKNOWN")` is total here). -/
def runLiveness (state : List (String × LivenessRecord)) (domains : List String)
    (results : String → Status) (now : String) : List (String × LivenessRecord) :=
  domains.map fun d => (d, advanceState (prevCountOf state d) (results d) now)

/-- The removal-candidate list accumulated in the same loop:
`if count >= THRESHOLD: candidates.append(domain)`, where `count` is the
*updated* counter. -/
def candidatesOf (state : List (String × LivenessRecord)) (domains : List String)
    (results : String → Status) (now : String) : List String :=
  domains.filter fun d =>
    decide (THRESHOLD ≤ (advanceState (prevCountOf state d) (results d) now).count)

/- ### Character-list utilities shared by the three scripts -/

/-- Strict lexicographic order on character lists by code point: exactly the
order Python uses to compare `str` values (and hence the order `sorted` uses
inside the `sort_key` tuples). -/
def charListLT : List Char → List Char → Bool
  | [], [] => false
  | [], _ :: _ => true
  | _ :: _, [] => false
  | a :: as, b :: bs => if a < b then true else if b < a then false else charListLT as bs

/-- Python `a < b` on strings. -/
def strLT (a b : String) : Bool := charListLT a.toList b.toList

/-- Python `rule.partition(",")` restricted to the two components the scripts
use: the text before the first comma and the text after it (empty when there
is no comma). -/
def splitAtComma : List Char → List Char × List Char
  | [] => ([], [])
  | c :: cs =>
    if c = ',' then ([], cs)
    else
      let p := splitAtComma cs
      (c :: p.1, p.2)

/-- Python `s.split(",")`: every comma splits, empty fields kept, always at
least one field. -/
def splitFields : List Char → List (List Char)
  | [] => [[]]
  | c :: cs =>
    if c = ',' then [] :: splitFields cs
    else
      match splitFields cs with
      | f :: rest => (c :: f) :: rest
      | [] => [[c]]

/-- Inverse of `splitFields`: join fields with commas (Python `",".join`). -/
def joinFields : List (List Char) → List Char
  | [] => []
  | [f] => f
  | f :: fs => f ++ ',' :: joinFields fs

/-- Holds when `tok` occurs as a contiguous substring of `l`. -/
def ContainsTok (tok l : List Char) : Prop := ∃ p q, l = p ++ tok ++ q

/- ### Canonical ordering (`sort_key` in sync_rules.py and build_clients.py) -/

/-- The `RULE_ORDER` dict: `RULE_ORDER.get(rule_type, 99)`. -/
def ruleRank (t : String) : Nat :=
  if t = "DOMAIN" then 0
  else if t = "DOMAIN-SUFFIX" then 1
  else if t = "DOMAIN-KEYWORD" then 2
  else if t = "DOMAIN-WILDCARD" then 3
  else if t = "DOMAIN-REGEX" then 4
  else if t = "IP-CIDR" then 5
  else if t = "IP-CIDR6" then 6
  else if t = "IP-ASN" then 7
  else if t = "USER-AGENT" then 8
  else 99

/-- Python `sort_key(rule) = (RULE_ORDER.get(rule_type, 99), rule_type, rest)` where
`rule_type, _, rest = rule.partition(",")`. -/
def sortKey (rule : String) : Nat × String × String :=
  let p := splitAtComma rule.toList
  (ruleRank (String.mk p.1), String.mk p.1, String.mk p.2)

/-- Lexicographic non-strict comparison of two `sort_key` tuples, exactly as
Python compares `(int, str, str)` triples. -/
def keyLE (a b : Nat × String × String) : Bool :=
  if a.1 < b.1 then true
  else if b.1 < a.1 then false
  else if strLT a.2.1 b.2.1 then true
  else if strLT b.2.1 a.2.1 then false
  else if strLT a.2.2 b.2.2 then true
  else if strLT b.2.2 a.2.2 then false
  else true

/-- Rule comparison by canonical sort key. -/
def ruleLE (a b : String) : Bool := keyLE (sortKey a) (sortKey b)

/-- Stable insertion of a rule into an already sorted list: the new rule goes
before the first element whose key is not below it, so elements with equal
keys keep their relative input order — the same extensional behaviour as
Python's stable `sorted(..., key=sort_key)`. -/
def insertRule (a : String) : List String → List String
  | [] => [a]
  | b :: l => if ruleLE a b then a :: b :: l else b :: insertRule a l

/-- Python `sorted(rules, key=sort_key)`: any stable sort by `sort_key`; modelled as
stable insertion sort. -/
def sortRules : List String → List String
  | [] => []
  | a :: l => insertRule a (sortRules l)

/-- Sortedness with respect to the canonical rule order. -/
abbrev RuleSorted (l : List String) : Prop := l.Pairwise fun x y => ruleLE x y = true

/- ### Resolve view (`sync_rules.py` line 139: `r.replace(",no-resolve", "")`) -/

/-- The literal text `",no-resolve"` that `str.replace` scans for. -/
def noResolveTok : List Char := (",no-resolve").toList

/-- The bare modifier token `"no-resolve"`. -/
def noResolveChars : List Char := ("no-resolve").toList

/-- Python `s.replace(",no-resolve", "")` scanning left to right and removing
every non-overlapping occurrence of the pattern.  The `fuel` argument only
makes the recursion structural; `fuel = length of the list` always suffices
because every step consumes at least one character. -/
def stripTokFuel : Nat → List Char → List Char
  | 0, l => l
  | _ + 1, [] => []
  | fuel + 1, c :: cs =>
    if noResolveTok.isPrefixOf (c :: cs) then stripTokFuel fuel ((c :: cs).drop noResolveTok.length)
    else c :: stripTokFuel fuel cs

/-- Python `r.replace(",no-resolve", "")` on a whole rule line. -/
def pyReplace (s : String) : String := String.mk (stripTokFuel s.toList.length s.toList)

/-- Modelled from the spec's words, for comparison with `pyReplace`:
"stripping exactly the do-not-resolve modifier from every record", leaving
the type and value fields untouched (modifiers are the comma-separated fields
from the third one on). -/
def specStrip (s : String) : String :=
  match splitFields s.toList with
  | [] => s
  | [_] => s
  | t :: v :: mods => String.mk (joinFields (t :: v :: mods.filter (fun m => m != noResolveChars)))

/-- The companion resolve artifact of `sync_rules.main` (line 139):
`sorted({r.replace(",no-resolve", "") for r in rules_sorted}, key=sort_key)`,
where `rules_sorted = sorted(merged_rules, key=sort_key)`. -/
def resolveArtifact (merged : List String) : List String :=
  sortRules (((sortRules merged).map pyReplace).dedup)

/-- Modelled from the spec's words, for comparison with `resolveArtifact`:
strip the do-not-resolve modifier from every record and re-deduplicate. -/
def specResolve (merged : List String) : List String :=
  sortRules ((merged.map specStrip).dedup)

/- ### Corpus merger (`sync_rules.py` main) -/

/-- The `CORE_SOURCES` list of `sync_rules.py`. -/
def CORE_SOURCES : List String :=
  ["OpenAI", "Claude", "Anthropic", "Gemini", "BardAI", "Copilot", "Civitai", "Stripe", "PayPal"]

/-- The path `upstream_root / "rule" / "Surge" / name / (name + ".list")`. -/
def corePath (root name : String) : String :=
  root ++ "/rule/Surge/" ++ name ++ "/" ++ name ++ ".list"

/-- The pure merge of `sync_rules.main` (lines 107-129): candidates found in
the upstream universe are verified extras, the rest are the missing report;
`merged = core ∪ verified ∪ custom` (sets modelled as deduplicated lists,
compared by membership). -/
def mergeCorpus (core candidates custom upstreamUniverse : List String) :
    List String × List String :=
  let verified := candidates.filter fun l => upstreamUniverse.contains l
  let missing := candidates.filter fun l => !(upstreamUniverse.contains l)
  ((core ++ verified ++ custom).dedup, missing)

/-- The inputs `sync_rules.main` reads: the upstream universe (all lines of
`rglob("*.list")`), one optional parsed file per core source name, the parsed
extra-candidate file and custom file (absent files behave as empty), and the
`--refresh-custom` flag. -/
structure SyncInput where
  upstreamRoot : String
  upstream : List String
  coreFiles : String → Option (List String)
  extraFile : Option (List String)
  customFile : Option (List String)
  refreshCustom : Bool

/-- The artifacts `sync_rules.main` writes when it does not abort. -/
structure SyncOutput where
  mainRules : List String
  resolveRules : List String
  customNew : Option (List String)
  missingReport : List String
deriving DecidableEq

/-- The core-loading loop (lines 100-105): the first missing source list
raises `SystemExit(f"Missing upstream list: {path}")`. -/
def loadCore (inp : SyncInput) : List String → Except String (List String)
  | [] => Except.ok []
  | n :: rest =>
    match inp.coreFiles n with
    | none => Except.error ("Missing upstream list: " ++ corePath inp.upstreamRoot n)
    | some rules =>
      match loadCore inp rest with
      | Except.error e => Except.error e
      | Except.ok tl => Except.ok (rules ++ tl)

/-- The whole of `sync_rules.main` as a pure function: `Except.error` models the
`SystemExit` abort, which happens before any artifact write; `Except.ok`
carries every artifact written at the end of the run. -/
def syncMain (inp : SyncInput) : Except String SyncOutput :=
  match loadCore inp CORE_SOURCES with
  | Except.error e => Except.error e
  | Except.ok core =>
    let candidates := (inp.extraFile.getD [])
    let verified := candidates.filter fun l => inp.upstream.contains l
    let mc := mergeCorpus core candidates (inp.customFile.getD []) inp.upstream
    let merged := mc.1
    let customNew :=
      if inp.refreshCustom then
        some (sortRules (merged.filter fun r => !(core.contains r) && !(verified.contains r)))
      else none
    Except.ok ⟨sortRules merged, resolveArtifact merged, customNew, sortRules mc.2⟩

/- ### Header builder (`build_header` in sync_rules.py) -/

/-- The fixed per-type enumeration the header iterates over. -/
def TYPE_KEYS : List String :=
  ["DOMAIN", "DOMAIN-SUFFIX", "DOMAIN-KEYWORD", "DOMAIN-WILDCARD", "DOMAIN-REGEX",
    "IP-CIDR", "IP-CIDR6", "IP-ASN", "USER-AGENT"]

/-- Python `counts.get(key)` of a `Counter`, absent keys counting 0. -/
def lookupCount (counts : List (String × Nat)) (k : String) : Nat :=
  (counts.lookup k).getD 0

/-- The per-type count lines the header emits: one `(key, count)` per key of
the fixed enumeration whose count is non-zero (`if counts.get(key):`). -/
def countLines (counts : List (String × Nat)) : List (String × Nat) :=
  TYPE_KEYS.filterMap fun k =>
    if lookupCount counts k ≠ 0 then some (k, lookupCount counts k) else none

/-- Python `sum(counts.values())`. -/
def totalCount (counts : List (String × Nat)) : Nat := (counts.map Prod.snd).sum

/-- The function `build_header(name, updated, counts)` of `sync_rules.py` (lines 49-74). -/
def build_header (name updated : String) (counts : List (String × Nat)) : List String :=
  ["# NAME: " ++ name,
    "# AUTHOR: aggregated by request",
    "# REPO: git@github.com:viewer12/OverseasAI.list.git",
    "# SOURCE: https://github.com/blackmatrix7/ios_rule_script (rule/Surge)",
    "# INCLUDED-CORE: OpenAI, Claude, Anthropic, Gemini, BardAI, Copilot, Civitai, Stripe, PayPal",
    "# INCLUDED-UPSTREAM-EXTRA: see README",
    "# INCLUDED-CUSTOM: see README",
    "# UPDATED: " ++ updated] ++
  (countLines counts).map (fun p => "# " ++ p.1 ++ ": " ++ toString p.2) ++
  ["# TOTAL: " ++ toString (totalCount counts)]

/- ### QuantumultX transform (`build_clients.py` main, lines 112-137) -/

/-- The type-remap chain of the QuantumultX transform. -/
def qxRemap (t : String) : String :=
  if t = "DOMAIN" then "HOST"
  else if t = "DOMAIN-SUFFIX" then "HOST-SUFFIX"
  else if t = "DOMAIN-KEYWORD" then "HOST-KEYWORD"
  else if t = "DOMAIN-WILDCARD" then "HOST-WILDCARD"
  else if t = "DOMAIN-REGEX" then "HOST-REGEX"
  else t

/-- One rule through the QuantumultX loop body: `parts = rule.split(",")`,
`value = parts[1] if len(parts) > 1 else ""`, and the emitted line is
`f"{qx_type},{value},OverseasAI"`.  (The source also computes
`extra = [x for x in parts[2:] if x != "no-resolve"]` but never uses it, so
every trailing modifier is dropped from the emitted line.) -/
def qxLine (rule : String) : String :=
  let parts := splitFields rule.toList
  let t := String.mk (parts.headD [])
  let v := String.mk ((parts.drop 1).headD [])
  qxRemap t ++ "," ++ v ++ ",OverseasAI"

/-- The whole QuantumultX rule body: the loop over `rules_sorted`. -/
def qxTransform (rulesSorted : List String) : List String := rulesSorted.map qxLine

/- ### Liveness checker (`check_domain` in check_domains.py) -/

/-- Outcome of one `resolver.resolve(domain, qtype)` call: an answer with
records, an answer with `rrset is None` / `NoAnswer` (both still proof the
domain exists), `NXDOMAIN`, or a transport-level failure (`NoNameservers`,
`Timeout`, any other `DNSException`). -/
inductive DnsOutcome where
  | answeredData
  | answeredNoData
  | nameError
  | failed
deriving DecidableEq

/-- The outcomes counting as evidence of existence. -/
def isAnswered : DnsOutcome → Bool
  | .answeredData => true
  | .answeredNoData => true
  | .nameError => false
  | .failed => false

/-- The inner `for qtype in ("A", "AAAA")` loop of `check_domain` for one
resolver, given the outcomes the oracle would return for the kinds in order:
answers set the `ok` flag, `NXDOMAIN` is passed over, and a transport failure
raises out of the loop, setting the `unknown` flag and skipping the remaining
kinds of this resolver.  Returns this resolver's contribution to the
`(ok, unknown)` flags. -/
def scanKinds : List DnsOutcome → Bool × Bool
  | [] => (false, false)
  | o :: rest =>
    match o with
    | .failed => (false, true)
    | .nameError => scanKinds rest
    | .answeredData => (true, (scanKinds rest).2)
    | .answeredNoData => (true, (scanKinds rest).2)

/-- The function `check_domain`: the outer loop over resolvers accumulates the flags, and
the final classification is `OK` if the `ok` flag is set, else `UNKNOWN` if
the `unknown` flag is set, else `NXDOMAIN`.  `attempts` lists, per resolver,
the outcomes for the record kinds in query order. -/
def checkDomain (attempts : List (List DnsOutcome)) : Status :=
  let rs := attempts.map scanKinds
  if rs.any (·.1) then .ok
  else if rs.any (·.2) then .unknown
  else .nxdomain

/-- The attempts one resolver actually performs: kinds in order up to and
including the first transport failure, which aborts that resolver's loop. -/
def performedKinds : List DnsOutcome → List DnsOutcome
  | [] => []
  | o :: rest => if o = .failed then [o] else o :: performedKinds rest

/-- All attempts the code performs across resolvers. -/
def performedAttempts (attempts : List (List DnsOutcome)) : List DnsOutcome :=
  (attempts.map performedKinds).flatten

/-- The spec's aggregation rule over a collection of attempt outcomes: `OK`
if any is answered, else `UNKNOWN` if any failed, else `NXDOMAIN`. -/
def dnsAggregate (l : List DnsOutcome) : Status :=
  if l.any isAnswered then .ok
  else if l.any (· == .failed) then .unknown
  else .nxdomain

/-- Modelled from the claim's words, for comparison with `checkDomain`: the
aggregation applied to the full per-resolver, per-record-kind outcome
collection (every pair has an outcome, none is skipped). -/
def specAggregateAll (attempts : List (List DnsOutcome)) : Status :=
  dnsAggregate attempts.flatten

/- ### Order lemmas for the canonical ordering -/

theorem charListLT_irrefl : ∀ l : List Char, charListLT l l = false := by
  intro l
  induction l with
  | nil => rfl
  | cons c cs ih => simp [charListLT, ih]

theorem charListLT_eq_of_not : ∀ {a b : List Char},
    charListLT a b = false → charListLT b a = false → a = b := by
  intro a
  induction a with
  | nil =>
    intro b h1 _
    cases b with
    | nil => rfl
    | cons y ys => simp [charListLT] at h1
  | cons x xs ih =>
    intro b h1 h2
    cases b with
    | nil => simp [charListLT] at h2
    | cons y ys =>
      simp only [charListLT] at h1 h2
      by_cases hxy : x < y
      · simp [hxy] at h1
      · rw [if_neg hxy] at h1
        by_cases hyx : y < x
        · simp [hyx] at h2
        · rw [if_neg hyx] at h1
          have hx : x = y := le_antisymm (not_lt.mp hyx) (not_lt.mp hxy)
          subst hx
          rw [if_neg hxy, if_neg hxy] at h2
          rw [ih h1 h2]

theorem charListLT_trans : ∀ {a b c : List Char},
    charListLT a b = true → charListLT b c = true → charListLT a c = true := by
  intro a
  induction a with
  | nil =>
    intro b c h1 h2
    cases b with
    | nil => simp [charListLT] at h1
    | cons y ys =>
      cases c with
      | nil => simp [charListLT] at h2
      | cons z zs => simp [charListLT]
  | cons x xs ih =>
    intro b c h1 h2
    cases b with
    | nil => simp [charListLT] at h1
    | cons y ys =>
      cases c with
      | nil => simp [charListLT] at h2
      | cons z zs =>
        simp only [charListLT] at h1 h2 ⊢
        by_cases hxy : x < y
        · by_cases hyz : y < z
          · simp [lt_trans hxy hyz]
          · rw [if_neg hyz] at h2
            by_cases hzy : z < y
            · simp [hzy] at h2
            · have hyzeq : y = z := le_antisymm (not_lt.mp hzy) (not_lt.mp hyz)
              subst hyzeq
              simp [hxy]
        · rw [if_neg hxy] at h1
          by_cases hyx : y < x
          · simp [hyx] at h1
          · have hxyeq : x = y := le_antisymm (not_lt.mp hyx) (not_lt.mp hxy)
            subst hxyeq
            rw [if_neg hyx] at h1
            by_cases hxz : x < z
            · simp [hxz]
            · rw [if_neg hxz] at h2 ⊢
              by_cases hzx : z < x
              · simp [hzx] at h2
              · rw [if_neg hzx] at h2 ⊢
                exact ih h1 h2

theorem strLT_irrefl (a : String) : strLT a a = false := charListLT_irrefl _

theorem strLT_eq_of_not {a b : String} (h1 : strLT a b = false) (h2 : strLT b a = false) :
    a = b := by
  have h := charListLT_eq_of_not h1 h2
  cases a with
  | mk da =>
    cases b with
    | mk db =>
      have hd : da = db := h
      rw [hd]

theorem strLT_trans {a b c : String} (h1 : strLT a b = true) (h2 : strLT b c = true) :
    strLT a c = true := charListLT_trans h1 h2

theorem strLT_asymm {a b : String} (h : strLT a b = true) : strLT b a = false := by
  by_contra hc
  have h2 : strLT b a = true := by
    cases he : strLT b a with
    | false => exact absurd he hc
    | true => rfl
  have := strLT_trans h h2
  rw [strLT_irrefl] at this
  exact Bool.false_ne_true this

theorem keyLE_iff {a1 b1 : Nat} {a2 a3 b2 b3 : String} :
    keyLE (a1, a2, a3) (b1, b2, b3) = true ↔
      a1 < b1 ∨ (a1 = b1 ∧ (strLT a2 b2 = true ∨
        (a2 = b2 ∧ (strLT a3 b3 = true ∨ a3 = b3)))) := by
  simp only [keyLE]
  rcases Nat.lt_trichotomy a1 b1 with h | h | h
  · rw [if_pos h]
    simp [h]
  · subst h
    rw [if_neg (lt_irrefl a1), if_neg (lt_irrefl a1)]
    cases hs1 : strLT a2 b2 with
    | true =>
      simp [hs1]
    | false =>
      cases hs2 : strLT b2 a2 with
      | true =>
        simp only [Bool.false_eq_true, if_false, if_true, false_iff]
        rintro (hlt | ⟨-, hs | ⟨he2, -⟩⟩)
        · exact lt_irrefl a1 hlt
        · exact hs
        · rw [he2, strLT_irrefl] at hs2; exact Bool.false_ne_true hs2
      | false =>
        have he2 : a2 = b2 := strLT_eq_of_not hs1 hs2
        subst he2
        simp only [Bool.false_eq_true, if_false]
        cases hs3 : strLT a3 b3 with
        | true => simp [hs3]
        | false =>
          cases hs4 : strLT b3 a3 with
          | true =>
            simp only [Bool.false_eq_true, if_false, if_true, false_iff]
            rintro (hlt | ⟨-, hs | ⟨-, hs | he3⟩⟩)
            · exact lt_irrefl a1 hlt
            · exact hs
            · exact hs
            · rw [he3, strLT_irrefl] at hs4; exact Bool.false_ne_true hs4
          | false =>
            have he3 : a3 = b3 := strLT_eq_of_not hs3 hs4
            simp [he3]
  · rw [if_neg (Nat.lt_asymm h), if_pos h]
    simp only [Bool.false_eq_true, false_iff]
    rintro (hlt | ⟨he, -⟩)
    · exact Nat.lt_asymm h hlt
    · omega

theorem keyLE_total (a b : Nat × String × String) : keyLE a b = true ∨ keyLE b a = true := by
  obtain ⟨a1, a2, a3⟩ := a
  obtain ⟨b1, b2, b3⟩ := b
  rw [keyLE_iff, keyLE_iff]
  rcases Nat.lt_trichotomy a1 b1 with h | h | h
  · exact Or.inl (Or.inl h)
  · subst h
    cases hs1 : strLT a2 b2 with
    | true => exact Or.inl (Or.inr ⟨rfl, Or.inl rfl⟩)
    | false =>
      cases hs2 : strLT b2 a2 with
      | true => exact Or.inr (Or.inr ⟨rfl, Or.inl rfl⟩)
      | false =>
        have he2 : a2 = b2 := strLT_eq_of_not hs1 hs2
        subst he2
        cases hs3 : strLT a3 b3 with
        | true => exact Or.inl (Or.inr ⟨rfl, Or.inr ⟨rfl, Or.inl rfl⟩⟩)
        | false =>
          cases hs4 : strLT b3 a3 with
          | true => exact Or.inr (Or.inr ⟨rfl, Or.inr ⟨rfl, Or.inl rfl⟩⟩)
          | false =>
            have he3 : a3 = b3 := strLT_eq_of_not hs3 hs4
            exact Or.inl (Or.inr ⟨rfl, Or.inr ⟨rfl, Or.inr he3⟩⟩)
  · exact Or.inr (Or.inl h)

theorem keyLE_trans {a b c : Nat × String × String}
    (h1 : keyLE a b = true) (h2 : keyLE b c = true) : keyLE a c = true := by
  obtain ⟨a1, a2, a3⟩ := a
  obtain ⟨b1, b2, b3⟩ := b
  obtain ⟨c1, c2, c3⟩ := c
  rw [keyLE_iff] at h1 h2 ⊢
  rcases h1 with h1 | ⟨e1, h1⟩
  · rcases h2 with h2 | ⟨e2, -⟩
    · exact Or.inl (lt_trans h1 h2)
    · exact Or.inl (by omega)
  · rcases h2 with h2 | ⟨e2, h2⟩
    · exact Or.inl (by omega)
    · refine Or.inr ⟨e1.trans e2, ?_⟩
      rcases h1 with h1 | ⟨f1, h1⟩
      · rcases h2 with h2 | ⟨f2, -⟩
        · exact Or.inl (strLT_trans h1 h2)
        · exact Or.inl (f2 ▸ h1)
      · rcases h2 with h2 | ⟨f2, h2⟩
        · exact Or.inl (by rw [f1]; exact h2)
        · refine Or.inr ⟨f1.trans f2, ?_⟩
          rcases h1 with h1 | h1
          · rcases h2 with h2 | h2
            · exact Or.inl (strLT_trans h1 h2)
            · exact Or.inl (h2 ▸ h1)
          · rcases h2 with h2 | h2
            · exact Or.inl (by rw [h1]; exact h2)
            · exact Or.inr (h1.trans h2)

theorem keyLE_antisymm {a b : Nat × String × String}
    (h1 : keyLE a b = true) (h2 : keyLE b a = true) : a = b := by
  obtain ⟨a1, a2, a3⟩ := a
  obtain ⟨b1, b2, b3⟩ := b
  rw [keyLE_iff] at h1 h2
  rcases h1 with h1 | ⟨e1, h1⟩
  · rcases h2 with h2 | ⟨e2, -⟩ <;> omega
  · rcases h2 with h2 | ⟨-, h2⟩
    · omega
    · subst e1
      rcases h1 with h1 | ⟨f1, h1⟩
      · rcases h2 with h2 | ⟨f2, -⟩
        · rw [strLT_asymm h1] at h2; exact absurd h2 Bool.false_ne_true
        · rw [f2, strLT_irrefl] at h1; exact absurd h1 Bool.false_ne_true
      · rcases h2 with h2 | ⟨-, h2⟩
        · rw [f1, strLT_irrefl] at h2; exact absurd h2 Bool.false_ne_true
        · subst f1
          rcases h1 with h1 | h1
          · rcases h2 with h2 | h2
            · rw [strLT_asymm h1] at h2; exact absurd h2 Bool.false_ne_true
            · rw [h2, strLT_irrefl] at h1; exact absurd h1 Bool.false_ne_true
          · rw [h1]

theorem ruleLE_total (a b : String) : ruleLE a b = true ∨ ruleLE b a = true :=
  keyLE_total _ _

theorem ruleLE_trans {a b c : String} (h1 : ruleLE a b = true) (h2 : ruleLE b c = true) :
    ruleLE a c = true := keyLE_trans h1 h2

theorem ruleLE_antisymm_key {a b : String} (h1 : ruleLE a b = true) (h2 : ruleLE b a = true) :
    sortKey a = sortKey b := keyLE_antisymm h1 h2

theorem ruleLE_refl (a : String) : ruleLE a a = true := (ruleLE_total a a).elim id id

/- ### Stable sort lemmas -/

theorem insertRule_perm (a : String) (l : List String) : (insertRule a l).Perm (a :: l) := by
  induction l with
  | nil => exact List.Perm.refl _
  | cons b t ih =>
    simp only [insertRule]
    by_cases h : ruleLE a b = true
    · rw [if_pos h]
    · rw [if_neg h]
      exact (List.Perm.cons b ih).trans (List.Perm.swap a b t)

theorem sortRules_perm (l : List String) : (sortRules l).Perm l := by
  induction l with
  | nil => exact List.Perm.refl _
  | cons a t ih => exact (insertRule_perm a (sortRules t)).trans (List.Perm.cons a ih)

theorem insertRule_sorted {a : String} {l : List String} (h : RuleSorted l) :
    RuleSorted (insertRule a l) := by
  induction l with
  | nil => simp [insertRule]
  | cons b t ih =>
    rcases List.pairwise_cons.mp h with ⟨hb, ht⟩
    simp only [insertRule]
    by_cases hab : ruleLE a b = true
    · rw [if_pos hab]
      refine List.pairwise_cons.mpr ⟨?_, h⟩
      intro x hx
      rcases List.mem_cons.mp hx with rfl | hx
      · exact hab
      · exact ruleLE_trans hab (hb x hx)
    · rw [if_neg hab]
      have hba : ruleLE b a = true := (ruleLE_total a b).resolve_left hab
      refine List.pairwise_cons.mpr ⟨?_, ih ht⟩
      intro x hx
      rcases List.mem_cons.mp ((insertRule_perm a t).mem_iff.mp hx) with rfl | hx
      · exact hba
      · exact hb x hx

theorem sortRules_sorted (l : List String) : RuleSorted (sortRules l) := by
  induction l with
  | nil => exact List.Pairwise.nil
  | cons a t ih => exact insertRule_sorted ih

/-- Two sorted lists that are permutations of each other and on which the
sort key is injective are equal: the heart of the determinism property. -/
theorem ruleSorted_perm_eq : ∀ {l₁ l₂ : List String}, l₁.Perm l₂ →
    RuleSorted l₁ → RuleSorted l₂ →
    (∀ a ∈ l₁, ∀ b ∈ l₁, sortKey a = sortKey b → a = b) → l₁ = l₂ := by
  intro l₁
  induction l₁ with
  | nil =>
    intro l₂ hp _ _ _
    exact (List.Perm.nil_eq hp).symm ▸ rfl
  | cons a t₁ ih =>
    intro l₂ hp hs₁ hs₂ hinj
    cases l₂ with
    | nil => exact absurd (List.Perm.eq_nil hp) (by simp)
    | cons b t₂ =>
      rcases List.pairwise_cons.mp hs₁ with ⟨h₁, ht₁⟩
      rcases List.pairwise_cons.mp hs₂ with ⟨h₂, ht₂⟩
      have hmem : a ∈ b :: t₂ := hp.mem_iff.mp (List.mem_cons_self a t₁)
      have hmem' : b ∈ a :: t₁ := hp.mem_iff.mpr (List.mem_cons_self b t₂)
      have hba : ruleLE b a = true := by
        rcases List.mem_cons.mp hmem with rfl | hx
        · exact ruleLE_refl a
        · exact h₂ a hx
      have hab : ruleLE a b = true := by
        rcases List.mem_cons.mp hmem' with he | hx
        · rw [he]; exact ruleLE_refl a
        · exact h₁ b hx
      have heq : a = b := hinj a (List.mem_cons_self a t₁) b hmem'
        (ruleLE_antisymm_key hab hba)
      subst heq
      have htp : t₁.Perm t₂ := hp.cons_inv
      have : t₁ = t₂ := ih htp ht₁ ht₂ fun x hx y hy =>
        hinj x (List.mem_cons_of_mem a hx) y (List.mem_cons_of_mem a hy)
      rw [this]

/-- C1 (counterexample): the claim says a domain present in the prior state but
absent from the current rule corpus keeps its historical record in the state
written at the end of the run.  It does not: with prior state holding
`old.com` and a current corpus containing only `a.com`, the written state has
no entry for `old.com` at all. -/
theorem c1_prior_record_dropped :
    let prior : List (String × LivenessRecord) :=
      [("old.com", { count := 5, last_status := .nxdomain, last_checked := "t0" })]
    let domains : List String := ["a.com"]
    prior.lookup "old.com" =
        some { count := 5, last_status := .nxdomain, last_checked := "t0" } ∧
      "old.com" ∉ domains ∧
      (runLiveness prior domains (fun _ => Status.ok) "t1").lookup "old.com" = none := by
  refine ⟨rfl, by decide, rfl⟩

/-- C1 (amended): the state written at the end of a run keys exactly the
domains of the current rule corpus, in corpus order; a domain absent from the
current corpus is dropped from the written state (its historical record is
not preserved), and a domain present gets exactly one fresh record. -/
theorem c1_written_state_keys (state : List (String × LivenessRecord))
    (domains : List String) (results : String → Status) (now : String) :
    (runLiveness state domains results now).map Prod.fst = domains := by
  simp only [runLiveness, List.map_map]
  exact List.map_id domains

/-- C2: the staleness update resets the counter on `OK`, increments it on
`NXDOMAIN`, carries it unchanged on `UNKNOWN`; the written record's
`last_status` and `last_checked` are the fresh ones on every branch; the
threshold is 3 and a domain is a removal candidate iff it was checked this
run and its updated counter reached the threshold. -/
theorem c2_staleness_update (c : Nat) (now : String) :
    (advanceState c .ok now).count = 0 ∧
      (advanceState c .nxdomain now).count = c + 1 ∧
      (advanceState c .unknown now).count = c ∧
      (∀ s : Status, (advanceState c s now).last_status = s ∧
        (advanceState c s now).last_checked = now) ∧
      THRESHOLD = 3 ∧
      (∀ (state : List (String × LivenessRecord)) (domains : List String)
          (results : String → Status) (d : String),
        d ∈ candidatesOf state domains results now ↔
          d ∈ domains ∧
            THRESHOLD ≤ (advanceState (prevCountOf state d) (results d) now).count) := by
  refine ⟨rfl, rfl, rfl, fun s => ⟨rfl, rfl⟩, rfl, fun state domains results d => ?_⟩
  simp [candidatesOf]

/-- C3 (counterexample): the claim says canonicalizing any two enumerations of
the same rule set yields identical sequences.  It fails: the rules "DOMAIN"
and "DOMAIN," have the same sort key (0, "DOMAIN", ""), because
rule.partition(",") yields rest = "" for both, so the stable sort keeps them
in enumeration order and the two enumerations produce different sequences. -/
theorem c3_sort_not_deterministic :
    (["DOMAIN", "DOMAIN,"] : List String).Perm ["DOMAIN,", "DOMAIN"] ∧
      (["DOMAIN", "DOMAIN,"] : List String).Nodup ∧
      sortKey "DOMAIN" = sortKey "DOMAIN," ∧
      sortRules ["DOMAIN", "DOMAIN,"] ≠ sortRules ["DOMAIN,", "DOMAIN"] := by
  exact ⟨List.Perm.swap _ _ _, by decide, by decide, by decide⟩

/-- C3 (amended): canonical sorting is deterministic on every rule set on
which the sort key is injective (no two distinct rules share a key; the only
possible collision is a bare type "T" versus "T,"): any two enumerations of
such a set yield the identical ordered sequence. -/
theorem c3_sort_deterministic (l₁ l₂ : List String) (hp : l₁.Perm l₂)
    (hinj : ∀ a ∈ l₁, ∀ b ∈ l₁, sortKey a = sortKey b → a = b) :
    sortRules l₁ = sortRules l₂ :=
  ruleSorted_perm_eq ((sortRules_perm l₁).trans (hp.trans (sortRules_perm l₂).symm))
    (sortRules_sorted l₁) (sortRules_sorted l₂)
    (fun a ha b hb hk =>
      hinj a ((sortRules_perm l₁).mem_iff.mp ha) b ((sortRules_perm l₁).mem_iff.mp hb) hk)

/-- Witness for `c3_sort_deterministic` at a concrete two-element rule set. -/
theorem c3_sort_deterministic_witness :
    (["DOMAIN-SUFFIX,x.com", "DOMAIN,a.com"] : List String).Perm
        ["DOMAIN,a.com", "DOMAIN-SUFFIX,x.com"] ∧
      (∀ a ∈ (["DOMAIN-SUFFIX,x.com", "DOMAIN,a.com"] : List String),
        ∀ b ∈ (["DOMAIN-SUFFIX,x.com", "DOMAIN,a.com"] : List String),
          sortKey a = sortKey b → a = b) ∧
      sortRules ["DOMAIN-SUFFIX,x.com", "DOMAIN,a.com"] =
        sortRules ["DOMAIN,a.com", "DOMAIN-SUFFIX,x.com"] :=
  ⟨List.Perm.swap _ _ _, by decide,
    c3_sort_deterministic _ _ (List.Perm.swap _ _ _) (by decide)⟩

/-- C4 (counterexample): the claim says an extra candidate absent from the
upstream universe never appears in the merged output.  It does appear when
the custom bucket independently contains the same line: here the candidate
"DOMAIN,x.com" is not upstream, is reported missing, and still lands in
`merged` through the custom bucket. -/
theorem c4_missing_extra_still_merged :
    ("DOMAIN,x.com" ∈ (["DOMAIN,x.com"] : List String)) ∧
      "DOMAIN,x.com" ∉ ([] : List String) ∧
      "DOMAIN,x.com" ∈ (mergeCorpus [] ["DOMAIN,x.com"] ["DOMAIN,x.com"] []).1 ∧
      "DOMAIN,x.com" ∈ (mergeCorpus [] ["DOMAIN,x.com"] ["DOMAIN,x.com"] []).2 := by
  refine ⟨by decide, by decide, by decide, by decide⟩

/-- C4 (amended): an extra-candidate line not present in the upstream
universe is never merged *through the extra bucket*: it always lands in the
missing report (and in its sorted rendering), and it appears in `merged` only
if the core or custom bucket independently contains it. -/
theorem c4_missing_extra (core candidates custom upstreamUniverse : List String)
    (line : String) (hc : line ∈ candidates) (hu : line ∉ upstreamUniverse) :
    line ∈ (mergeCorpus core candidates custom upstreamUniverse).2 ∧
      line ∈ sortRules (mergeCorpus core candidates custom upstreamUniverse).2 ∧
      (line ∈ (mergeCorpus core candidates custom upstreamUniverse).1 ↔
        line ∈ core ∨ line ∈ custom) := by
  have hmiss : line ∈ (mergeCorpus core candidates custom upstreamUniverse).2 := by
    simp only [mergeCorpus, List.mem_filter]
    exact ⟨hc, by simp [hu]⟩
  refine ⟨hmiss, (sortRules_perm _).mem_iff.mpr hmiss, ?_⟩
  simp only [mergeCorpus, List.mem_dedup, List.mem_append, List.mem_filter]
  constructor
  · rintro ((h | ⟨-, h⟩) | h)
    · exact Or.inl h
    · simp [hu] at h
    · exact Or.inr h
  · rintro (h | h)
    · exact Or.inl (Or.inl h)
    · exact Or.inr h

/-- Witness for `c4_missing_extra`: a candidate absent upstream and absent
from core and custom is excluded from the merged set and reported missing. -/
theorem c4_missing_extra_witness :
    ("DOMAIN,y.org" ∈ (["DOMAIN,y.org"] : List String)) ∧
      "DOMAIN,y.org" ∉ (["DOMAIN,up.example"] : List String) ∧
      ("DOMAIN,y.org" ∈
          (mergeCorpus ["DOMAIN,core.example"] ["DOMAIN,y.org"] []
            ["DOMAIN,up.example"]).2 ∧
        "DOMAIN,y.org" ∈
          sortRules (mergeCorpus ["DOMAIN,core.example"] ["DOMAIN,y.org"] []
            ["DOMAIN,up.example"]).2 ∧
        ("DOMAIN,y.org" ∈
            (mergeCorpus ["DOMAIN,core.example"] ["DOMAIN,y.org"] []
              ["DOMAIN,up.example"]).1 ↔
          "DOMAIN,y.org" ∈ (["DOMAIN,core.example"] : List String) ∨
            "DOMAIN,y.org" ∈ ([] : List String))) :=
  ⟨by decide, by decide,
    c4_missing_extra ["DOMAIN,core.example"] ["DOMAIN,y.org"] [] ["DOMAIN,up.example"]
      "DOMAIN,y.org" (by decide) (by decide)⟩

/- ### Header-total lemmas -/

theorem lookupCount_cons (k0 : String) (v0 : Nat) (rest : List (String × Nat)) (k : String) :
    lookupCount ((k0, v0) :: rest) k = if k = k0 then v0 else lookupCount rest k := by
  by_cases h : k = k0
  · subst h
    simp [lookupCount, List.lookup]
  · have hb : (k == k0) = false := by simpa using h
    simp [lookupCount, List.lookup, hb, h]

theorem lookupCount_eq_zero_of_not_memKeys :
    ∀ {counts : List (String × Nat)} {k : String},
      k ∉ counts.map Prod.fst → lookupCount counts k = 0 := by
  intro counts
  induction counts with
  | nil => intro k _; rfl
  | cons p rest ih =>
    intro k hk
    obtain ⟨k0, v0⟩ := p
    simp only [List.map_cons, List.mem_cons, not_or] at hk
    rw [lookupCount_cons, if_neg hk.1]
    exact ih hk.2

theorem countLines_sum (counts : List (String × Nat)) : ∀ KS : List String,
    ((KS.filterMap fun k =>
        if lookupCount counts k ≠ 0 then some (k, lookupCount counts k) else none).map
      Prod.snd).sum = (KS.map (lookupCount counts)).sum := by
  intro KS
  induction KS with
  | nil => rfl
  | cons k ks ih =>
    by_cases h : lookupCount counts k ≠ 0
    · simp only [List.filterMap_cons, if_pos h, List.map_cons, List.sum_cons, ih]
    · push_neg at h
      simp only [List.filterMap_cons, h, ne_eq, not_true_eq_false, if_false, List.map_cons,
        List.sum_cons, ih]
      omega

theorem sum_map_ite (KS : List String) (g : String → Nat) (k0 : String) (v0 : Nat)
    (hg : g k0 = 0) :
    (KS.map fun k => if k = k0 then v0 else g k).sum = (KS.map g).sum + v0 * KS.count k0 := by
  induction KS with
  | nil => simp
  | cons k ks ih =>
    by_cases h : k = k0
    · subst h
      simp only [List.map_cons, List.sum_cons, if_pos rfl, ih, hg, List.count_cons,
        beq_self_eq_true, if_true]
      ring
    · simp only [List.map_cons, List.sum_cons, if_neg h, ih, List.count_cons]
      rw [if_neg (by simpa using h)]
      ring

theorem total_eq_sum_keys : ∀ (counts : List (String × Nat)) (KS : List String),
    KS.Nodup → (counts.map Prod.fst).Nodup →
    (∀ p ∈ counts, p.2 ≠ 0 → p.1 ∈ KS) →
    (KS.map (lookupCount counts)).sum = totalCount counts := by
  intro counts
  induction counts with
  | nil =>
    intro KS _ _ _
    have : ∀ k ∈ KS, lookupCount [] k = 0 := fun k _ => rfl
    rw [List.map_congr_left this]
    simp [totalCount]
  | cons p rest ih =>
    obtain ⟨k0, v0⟩ := p
    intro KS hKS hnd hsup
    have hnd' : (k0 :: rest.map Prod.fst).Nodup := by simpa using hnd
    have hk0 : k0 ∉ rest.map Prod.fst := (List.nodup_cons.mp hnd').1
    have hrest0 : lookupCount rest k0 = 0 := lookupCount_eq_zero_of_not_memKeys hk0
    have hstep : (KS.map (lookupCount ((k0, v0) :: rest))).sum
        = (KS.map fun k => if k = k0 then v0 else lookupCount rest k).sum := by
      congr 1
      exact List.map_congr_left fun k _ => lookupCount_cons k0 v0 rest k
    rw [hstep, sum_map_ite KS (lookupCount rest) k0 v0 hrest0,
      ih KS hKS (by simpa using (List.nodup_cons.mp hnd').2)
        (fun q hq hqv => hsup q (List.mem_cons_of_mem _ hq) hqv)]
    by_cases hv : v0 = 0
    · subst hv
      simp [totalCount]
    · have hmem : k0 ∈ KS := hsup (k0, v0) (List.mem_cons_self _ _) hv
      rw [List.count_eq_one_of_mem hKS hmem]
      simp only [totalCount, List.map_cons, List.sum_cons]
      omega

/-- C5 (counterexample): the claim says the total line equals the sum of the
emitted non-zero per-type count lines.  A count for a type outside the fixed
enumeration (e.g. an unknown rule type "FOO") is added to the total but gets
no count line, so the total exceeds the emitted sum. -/
theorem c5_total_counts_unknown_type :
    countLines [("FOO", 5)] = [] ∧
      ((countLines [("FOO", 5)]).map Prod.snd).sum = 0 ∧
      totalCount [("FOO", 5)] = 5 ∧
      (build_header "OverseasAI" "now" [("FOO", 5)]).getLastD "" = "# TOTAL: 5" ∧
      ¬ ((countLines [("FOO", 5)]).map Prod.snd).sum = totalCount [("FOO", 5)] := by
  refine ⟨by decide, by decide, by decide, by decide, by decide⟩

/-- C5 (amended): the total line is the sum of *all* counts; it equals the
sum of the emitted non-zero per-type count lines whenever every type with a
non-zero count belongs to the fixed nine-type enumeration (counter keys are
distinct, as a Python Counter guarantees). -/
theorem c5_total_eq_emitted (counts : List (String × Nat))
    (hnd : (counts.map Prod.fst).Nodup)
    (hk : ∀ p ∈ counts, p.2 ≠ 0 → p.1 ∈ TYPE_KEYS) :
    ((countLines counts).map Prod.snd).sum = totalCount counts := by
  have h1 := countLines_sum counts TYPE_KEYS
  have h2 := total_eq_sum_keys counts TYPE_KEYS (by decide) hnd hk
  calc ((countLines counts).map Prod.snd).sum
      = (TYPE_KEYS.map (lookupCount counts)).sum := h1
    _ = totalCount counts := h2

/-- Witness for `c5_total_eq_emitted` on a two-type counter. -/
theorem c5_total_eq_emitted_witness :
    ((([("DOMAIN", 2), ("IP-CIDR", 1)] : List (String × Nat)).map Prod.fst).Nodup) ∧
      (∀ p ∈ ([("DOMAIN", 2), ("IP-CIDR", 1)] : List (String × Nat)),
        p.2 ≠ 0 → p.1 ∈ TYPE_KEYS) ∧
      ((countLines [("DOMAIN", 2), ("IP-CIDR", 1)]).map Prod.snd).sum =
        totalCount [("DOMAIN", 2), ("IP-CIDR", 1)] :=
  ⟨by decide, by decide, c5_total_eq_emitted [("DOMAIN", 2), ("IP-CIDR", 1)] (by decide) (by decide)⟩

/-- C6 (counterexample): the claim says the resolve artifact strips exactly
the do-not-resolve modifier, leaving the value field untouched.  The code
removes every occurrence of the literal text ",no-resolve": for the record
"DOMAIN-KEYWORD,no-resolve" — whose *value* is the keyword "no-resolve" and
which carries no modifier at all — the artifact holds "DOMAIN-KEYWORD",
while the spec-described transformation leaves the record unchanged. -/
theorem c6_resolve_mangles_value :
    resolveArtifact ["DOMAIN-KEYWORD,no-resolve"] = ["DOMAIN-KEYWORD"] ∧
      specResolve ["DOMAIN-KEYWORD,no-resolve"] = ["DOMAIN-KEYWORD,no-resolve"] ∧
      resolveArtifact ["DOMAIN-KEYWORD,no-resolve"] ≠
        specResolve ["DOMAIN-KEYWORD,no-resolve"] := by
  refine ⟨by decide, by decide, by decide⟩

/-- C6 (amended): the resolve artifact is obtained by deleting every
occurrence of the literal text ",no-resolve" from every record of the merged
set and re-deduplicating: its members are exactly the `pyReplace` images of
the merged records (so two records that differ only by that text collapse
into one), with no duplicates. -/
theorem c6_resolve_membership (merged : List String) :
    (resolveArtifact merged).Nodup ∧
      ∀ x, x ∈ resolveArtifact merged ↔ ∃ r ∈ merged, x = pyReplace r := by
  constructor
  · exact (sortRules_perm _).symm.nodup (List.nodup_dedup _)
  · intro x
    rw [resolveArtifact, (sortRules_perm _).mem_iff, List.mem_dedup, List.mem_map]
    constructor
    · rintro ⟨r, hr, rfl⟩
      exact ⟨r, (sortRules_perm merged).mem_iff.mp hr, rfl⟩
    · rintro ⟨r, hr, rfl⟩
      exact ⟨r, (sortRules_perm merged).mem_iff.mpr hr, rfl⟩

/- ### Field-splitting lemmas -/

theorem mk_toList (s : String) : String.mk s.toList = s := by
  cases s with
  | mk d => rfl

theorem toList_append (a b : String) : (a ++ b).toList = a.toList ++ b.toList :=
  String.data_append a b

theorem splitFields_ne_nil (l : List Char) : splitFields l ≠ [] := by
  induction l with
  | nil => simp [splitFields]
  | cons c cs ih =>
    simp only [splitFields]
    by_cases h : c = ','
    · simp [h]
    · rw [if_neg h]
      cases hs : splitFields cs with
      | nil => exact absurd hs ih
      | cons f rest => simp

theorem splitFields_no_comma : ∀ (l : List Char), ∀ f ∈ splitFields l, ',' ∉ f := by
  intro l
  induction l with
  | nil =>
    intro f hf
    simp only [splitFields, List.mem_singleton] at hf
    subst hf
    simp
  | cons c cs ih =>
    intro f hf
    simp only [splitFields] at hf
    by_cases h : c = ','
    · rw [if_pos h] at hf
      rcases List.mem_cons.mp hf with rfl | hf
      · simp
      · exact ih f hf
    · rw [if_neg h] at hf
      cases hs : splitFields cs with
      | nil => exact absurd hs (splitFields_ne_nil cs)
      | cons g rest =>
        rw [hs] at hf
        have hg : g ∈ splitFields cs := by
          rw [hs]; exact List.mem_cons_self g rest
        rcases List.mem_cons.mp hf with rfl | hf
        · intro hmem
          rcases List.mem_cons.mp hmem with hcc | hmem
          · exact h hcc.symm
          · exact ih g hg hmem
        · have hfcs : f ∈ splitFields cs := by
            rw [hs]; exact List.mem_cons_of_mem g hf
          exact ih f hfcs

theorem splitFields_of_no_comma : ∀ (f : List Char), ',' ∉ f → splitFields f = [f] := by
  intro f
  induction f with
  | nil => intro _; rfl
  | cons c cs ih =>
    intro h
    simp only [List.mem_cons, not_or] at h
    obtain ⟨h1, h2⟩ := h
    have hc : ¬ c = ',' := fun e => h1 e.symm
    simp only [splitFields]
    rw [if_neg hc, ih h2]

theorem splitFields_append_comma : ∀ (f X : List Char), ',' ∉ f →
    splitFields (f ++ ',' :: X) = f :: splitFields X := by
  intro f
  induction f with
  | nil => intro X _; simp [splitFields]
  | cons c cs ih =>
    intro X h
    simp only [List.mem_cons, not_or] at h
    obtain ⟨h1, h2⟩ := h
    have hc : ¬ c = ',' := fun e => h1 e.symm
    simp only [List.cons_append, splitFields]
    rw [if_neg hc]
    simp only [List.append_eq]
    rw [ih X h2]

theorem splitFields_joinFields : ∀ (fs : List (List Char)), fs ≠ [] →
    (∀ f ∈ fs, ',' ∉ f) → splitFields (joinFields fs) = fs := by
  intro fs
  induction fs with
  | nil => intro h _; exact absurd rfl h
  | cons f rest ih =>
    intro _ hall
    cases rest with
    | nil =>
      simp only [joinFields]
      exact splitFields_of_no_comma f (hall f (List.mem_cons_self f []))
    | cons g rest2 =>
      have hjoin : joinFields (f :: g :: rest2) = f ++ ',' :: joinFields (g :: rest2) := rfl
      rw [hjoin, splitFields_append_comma f _ (hall f (List.mem_cons_self _ _)),
        ih (by simp) (fun x hx => hall x (List.mem_cons_of_mem f hx))]

theorem qxRemap_no_comma {t : String} (h : ',' ∉ t.toList) : ',' ∉ (qxRemap t).toList := by
  simp only [qxRemap]
  split_ifs <;> first | decide | exact h

/-- C7: the QuantumultX transform remaps the five DOMAIN-family types to the
HOST family, passes every other type through unchanged, drops the
do-not-resolve modifier (along with the rest of the modifier list) and
appends the fixed policy-group label "OverseasAI" as a trailing field; in
particular DOMAIN-SUFFIX,x.com,no-resolve yields
HOST-SUFFIX,x.com,OverseasAI. -/
theorem c7_remap_family (t v : String) (mods : List (List Char))
    (ht : ',' ∉ t.toList) (hv : ',' ∉ v.toList) (hm : ∀ m ∈ mods, ',' ∉ m) :
    qxLine (String.mk (joinFields (t.toList :: v.toList :: mods))) =
        qxRemap t ++ "," ++ v ++ ",OverseasAI" ∧
      qxRemap "DOMAIN" = "HOST" ∧
      qxRemap "DOMAIN-SUFFIX" = "HOST-SUFFIX" ∧
      qxRemap "DOMAIN-KEYWORD" = "HOST-KEYWORD" ∧
      qxRemap "DOMAIN-WILDCARD" = "HOST-WILDCARD" ∧
      qxRemap "DOMAIN-REGEX" = "HOST-REGEX" ∧
      (∀ s : String,
        s ∉ (["DOMAIN", "DOMAIN-SUFFIX", "DOMAIN-KEYWORD", "DOMAIN-WILDCARD",
          "DOMAIN-REGEX"] : List String) → qxRemap s = s) ∧
      qxLine "DOMAIN-SUFFIX,x.com,no-resolve" = "HOST-SUFFIX,x.com,OverseasAI" := by
  refine ⟨?_, rfl, rfl, rfl, rfl, rfl, ?_, by decide⟩
  · have hsplit : splitFields (String.mk (joinFields (t.toList :: v.toList :: mods))).toList
        = t.toList :: v.toList :: mods := by
      have : (String.mk (joinFields (t.toList :: v.toList :: mods))).toList
          = joinFields (t.toList :: v.toList :: mods) := rfl
      rw [this]
      refine splitFields_joinFields _ (by simp) ?_
      intro f hf
      rcases List.mem_cons.mp hf with rfl | hf
      · exact ht
      · rcases List.mem_cons.mp hf with rfl | hf
        · exact hv
        · exact hm f hf
    simp only [qxLine, hsplit, List.headD_cons, List.drop_succ_cons, List.drop_zero]
    rw [mk_toList, mk_toList]
  · intro s hs
    simp only [List.mem_cons, List.not_mem_nil, or_false, not_or] at hs
    obtain ⟨h1, h2, h3, h4, h5⟩ := hs
    simp [qxRemap, h1, h2, h3, h4, h5]

/-- Witness for `c7_remap_family` at the claim's own example rule. -/
theorem c7_remap_family_witness :
    (',' ∉ ("DOMAIN-SUFFIX").toList) ∧ (',' ∉ ("x.com").toList) ∧
      (∀ m ∈ [("no-resolve").toList], ',' ∉ m) ∧
      qxLine (String.mk (joinFields
          [("DOMAIN-SUFFIX").toList, ("x.com").toList, ("no-resolve").toList])) =
        qxRemap "DOMAIN-SUFFIX" ++ "," ++ "x.com" ++ ",OverseasAI" :=
  ⟨by decide, by decide, by decide,
    (c7_remap_family "DOMAIN-SUFFIX" "x.com" [("no-resolve").toList]
      (by decide) (by decide) (by decide)).1⟩

/-- C10: the QuantumultX transform discards *all* trailing modifiers, not
only the do-not-resolve token (the filtered modifier list is computed but
never used): every emitted line splits into exactly three comma-separated
fields — the remapped type, the value (empty when the rule has no value
field), and the group label "OverseasAI". -/
theorem c10_exactly_three_fields (rule : String) :
    splitFields (qxLine rule).toList =
        [(qxRemap (String.mk ((splitFields rule.toList).headD []))).toList,
          ((splitFields rule.toList).drop 1).headD [],
          ("OverseasAI").toList] ∧
      (splitFields (qxLine rule).toList).length = 3 ∧
      qxLine "IP-ASN" = "IP-ASN,,OverseasAI" := by
  have hne := splitFields_ne_nil rule.toList
  have hhead : ',' ∉ (splitFields rule.toList).headD [] := by
    cases hp : splitFields rule.toList with
    | nil => exact absurd hp hne
    | cons p ps =>
      simp only [List.headD_cons]
      exact splitFields_no_comma rule.toList p (by rw [hp]; exact List.mem_cons_self p ps)
  have hv : ',' ∉ ((splitFields rule.toList).drop 1).headD [] := by
    cases hd : (splitFields rule.toList).drop 1 with
    | nil => simp
    | cons v vs =>
      simp only [List.headD_cons]
      exact splitFields_no_comma rule.toList v
        (List.mem_of_mem_drop (n := 1) (by rw [hd]; exact List.mem_cons_self v vs))
  have hA : ',' ∉ (qxRemap (String.mk ((splitFields rule.toList).headD []))).toList :=
    qxRemap_no_comma hhead
  have hq : (qxLine rule).toList =
      joinFields [(qxRemap (String.mk ((splitFields rule.toList).headD []))).toList,
        ((splitFields rule.toList).drop 1).headD [], ("OverseasAI").toList] := by
    simp only [qxLine, toList_append]
    have hmkv : (String.mk (((splitFields rule.toList).drop 1).headD [])).toList
        = ((splitFields rule.toList).drop 1).headD [] := rfl
    simp [joinFields, hmkv, List.append_assoc]
  have hmain : splitFields (qxLine rule).toList =
      [(qxRemap (String.mk ((splitFields rule.toList).headD []))).toList,
        ((splitFields rule.toList).drop 1).headD [],
        ("OverseasAI").toList] := by
    rw [hq]
    refine splitFields_joinFields _ (by simp) ?_
    intro f hf
    rcases List.mem_cons.mp hf with rfl | hf
    · exact hA
    · rcases List.mem_cons.mp hf with rfl | hf
      · exact hv
      · rcases List.mem_cons.mp hf with rfl | hf
        · decide
        · exact absurd hf (List.not_mem_nil f)
  refine ⟨hmain, ?_, by decide⟩
  rw [hmain]
  rfl

/- ### Liveness-checker lemmas -/

theorem scanKinds_eq (l : List DnsOutcome) :
    scanKinds l = ((performedKinds l).any isAnswered,
      (performedKinds l).any (· == DnsOutcome.failed)) := by
  induction l with
  | nil => rfl
  | cons o rest ih =>
    cases o <;> simp [scanKinds, performedKinds, ih, isAnswered]

theorem any_map_general {α β : Type} (f : α → β) (p : β → Bool) (l : List α) :
    (l.map f).any p = l.any fun x => p (f x) := by
  induction l with
  | nil => rfl
  | cons a t ih => simp [ih]

/-- C8 (amended): `check_domain` classifies by aggregating over the attempts
it actually performs — per resolver, the record kinds in order up to and
including the first transport failure, which skips that resolver's remaining
kinds: `OK` if any performed attempt answered (with or without data), else
`UNKNOWN` if any performed attempt failed, else `NXDOMAIN`. -/
theorem c8_classification (attempts : List (List DnsOutcome)) :
    checkDomain attempts = dnsAggregate (performedAttempts attempts) := by
  have h1 : ∀ x : List DnsOutcome, (scanKinds x).1 = (performedKinds x).any isAnswered :=
    fun x => by rw [scanKinds_eq]
  have h2 : ∀ x : List DnsOutcome,
      (scanKinds x).2 = (performedKinds x).any (· == DnsOutcome.failed) :=
    fun x => by rw [scanKinds_eq]
  simp only [checkDomain, dnsAggregate, performedAttempts, List.any_flatten,
    any_map_general, h1, h2]

/-- C8 (counterexample): the claim aggregates over the full per-resolver,
per-record-kind outcome collection.  With resolver 1 failing on the A query
(which skips its AAAA query, whose outcome would have been an answer) and
resolver 2 returning NXDOMAIN twice, the collection contains an answered
attempt, so the claim demands OK — but the code returns UNKNOWN because the
answered outcome is never observed. -/
theorem c8_skipped_kind :
    checkDomain [[DnsOutcome.failed, DnsOutcome.answeredData],
        [DnsOutcome.nameError, DnsOutcome.nameError]] = Status.unknown ∧
      specAggregateAll [[DnsOutcome.failed, DnsOutcome.answeredData],
        [DnsOutcome.nameError, DnsOutcome.nameError]] = Status.ok ∧
      Status.unknown ≠ Status.ok := by
  refine ⟨by decide, by decide, by decide⟩

/- ### Merge-abort lemmas -/

theorem loadCore_error (inp : SyncInput) : ∀ names : List String,
    (∃ n ∈ names, inp.coreFiles n = none) →
    ∃ m ∈ names, inp.coreFiles m = none ∧
      loadCore inp names =
        Except.error ("Missing upstream list: " ++ corePath inp.upstreamRoot m) := by
  intro names
  induction names with
  | nil =>
    rintro ⟨n, hn, -⟩
    cases hn
  | cons a rest ih =>
    rintro ⟨n, hn, hnone⟩
    cases ha : inp.coreFiles a with
    | none =>
      exact ⟨a, List.mem_cons_self _ _, ha, by simp [loadCore, ha]⟩
    | some rules =>
      have hn' : n ∈ rest := by
        rcases List.mem_cons.mp hn with rfl | h
        · rw [ha] at hnone; cases hnone
        · exact h
      obtain ⟨m, hm, hmn, heq⟩ := ih ⟨n, hn', hnone⟩
      refine ⟨m, List.mem_cons_of_mem _ hm, hmn, ?_⟩
      simp [loadCore, ha, heq]

/-- C9: if any required named core source list is absent, the merge aborts
with an error naming the (first) missing source, and no artifact — merged,
resolve, custom, or missing report — is produced: `syncMain` returns
`Except.error` (the `SystemExit` is raised before any write happens) and
never `Except.ok`. -/
theorem c9_missing_core_aborts (inp : SyncInput) (n : String)
    (hn : n ∈ CORE_SOURCES) (hmiss : inp.coreFiles n = none) :
    ∃ m ∈ CORE_SOURCES, inp.coreFiles m = none ∧
      syncMain inp =
        Except.error ("Missing upstream list: " ++ corePath inp.upstreamRoot m) ∧
      ContainsTok m.toList
        ("Missing upstream list: " ++ corePath inp.upstreamRoot m).toList ∧
      ∀ out : SyncOutput, syncMain inp ≠ Except.ok out := by
  obtain ⟨m, hm, hmn, heq⟩ := loadCore_error inp CORE_SOURCES ⟨n, hn, hmiss⟩
  have hsync : syncMain inp =
      Except.error ("Missing upstream list: " ++ corePath inp.upstreamRoot m) := by
    simp [syncMain, heq]
  refine ⟨m, hm, hmn, hsync, ?_, ?_⟩
  · refine ⟨("Missing upstream list: " ++ inp.upstreamRoot ++ "/rule/Surge/").toList,
      ("/" ++ m ++ ".list").toList, ?_⟩
    simp only [corePath, toList_append, List.append_assoc]
  · intro out h
    rw [hsync] at h
    cases h

/-- Witness for `c9_missing_core_aborts`: no core source file exists at all,
so the merge aborts naming the first source. -/
theorem c9_missing_core_aborts_witness :
    ("OpenAI" ∈ CORE_SOURCES) ∧
      (SyncInput.mk "up" [] (fun _ => none) none none false).coreFiles "OpenAI" = none ∧
      ∃ m ∈ CORE_SOURCES,
        (SyncInput.mk "up" [] (fun _ => none) none none false).coreFiles m = none ∧
        syncMain (SyncInput.mk "up" [] (fun _ => none) none none false) =
          Except.error ("Missing upstream list: " ++ corePath "up" m) ∧
        ContainsTok m.toList ("Missing upstream list: " ++ corePath "up" m).toList ∧
        ∀ out : SyncOutput,
          syncMain (SyncInput.mk "up" [] (fun _ => none) none none false) ≠ Except.ok out :=
  ⟨by decide, rfl,
    c9_missing_core_aborts (SyncInput.mk "up" [] (fun _ => none) none none false)
      "OpenAI" (by decide) rfl⟩
